import Mathlib

/-!
Shallow embedding of the scheduling and rewards core of the `flow`
daily-planning application (src/app.js), together with theorems checking
the natural-language specification against it.

Conventions of the embedding:
* JavaScript `HH:MM` strings stay strings; comparisons are the
  lexicographic order on `String` (the JS `<`/`>` operators on
  zero-padded ASCII time strings agree with it).
* Calendar dates are days since the Unix epoch (`Int`); `dateStr`
  reproduces `Date.prototype.toISOString().split('T')[0]` via the
  standard civil-from-days algorithm, and `dayOfWeek` reproduces
  `Date.prototype.getDay()` (0 = Sunday .. 6 = Saturday).
* The mutable global `store` becomes an explicit `Store` value threaded
  through the operations; `saveStore`/DOM rendering are effect-free
  projections and are dropped.
* JS numbers holding point amounts and cup counts are `Int`.
-/

set_option maxRecDepth 100000

namespace Flow

/-! ### Clock / date utilities -/

/-- Reproduces `Date.prototype.getDay()` for a date given as days since
1970-01-01 (which was a Thursday, weekday index 4): 0 = Sunday .. 6 = Saturday. -/
def dayOfWeek (z : Int) : Int :=
  (z + 4).emod 7

/-- Civil-from-days: converts days since 1970-01-01 to a Gregorian
`(year, month, day)` triple, as JavaScript's `Date` does for `toISOString`. -/
def civilFromDays (z : Int) : Int × Nat × Nat :=
  let days := z + 719468
  let era := days.ediv 146097
  let doe := (days - era * 146097).toNat
  let yoe := (doe - doe / 1460 + doe / 36524 - doe / 146096) / 365
  let y : Int := (yoe : Int) + era * 400
  let doy := doe - (365 * yoe + yoe / 4 - yoe / 100)
  let mp := (5 * doy + 2) / 153
  let d := doy - (153 * mp + 2) / 5 + 1
  let m := if mp < 10 then mp + 3 else mp - 9
  (y + (if m ≤ 2 then 1 else 0), m, d)

/-- Left-pads the decimal rendering of `n` with zeros to width 2. -/
def pad2 (n : Nat) : String :=
  if n < 10 then "0" ++ toString n else toString n

/-- Left-pads the decimal rendering of `n` with zeros to width 4
(`String.prototype.padStart(4, '0')` on a decimal string). -/
def pad4 (n : Nat) : String :=
  let s := toString n
  String.mk (List.replicate (4 - s.length) '0') ++ s

/-- `YYYY-MM-DD` rendering of a day number, as produced by
`new Date().toISOString().split('T')[0]` in src/app.js. -/
def dateStr (z : Int) : String :=
  let c := civilFromDays z
  pad4 c.1.toNat ++ "-" ++ pad2 c.2.1 ++ "-" ++ pad2 c.2.2

/-- Splits a character list at `':'` (the behavior of
`String.prototype.split(':')` on the character level). -/
def splitColon (cs : List Char) (acc : List Char) : List (List Char) :=
  match cs with
  | [] => [acc.reverse]
  | c :: cs => if c = ':' then acc.reverse :: splitColon cs []
               else splitColon cs (c :: acc)

/-- Decimal digit-string value (the behavior of JS `Number` on the
well-formed zero-padded digit runs of an `HH:MM` string). -/
def digitsToNat (cs : List Char) : Nat :=
  cs.foldl (fun acc c => acc * 10 + (c.toNat - 48)) 0

/-- Parses an `HH:MM` string into minutes of day, mirroring
`t.startTime.split(':').map(Number)` followed by `h * 60 + m`. -/
def toMinutes (t : String) : Int :=
  match splitColon t.data [] with
  | [h, m] => (digitsToNat h : Int) * 60 + (digitsToNat m : Int)
  | _ => 0

/-- Renders minutes-of-day back to `HH:MM` (used for the wind-down
reminder time, `sleepTime − 30` minutes, computed via `Date` arithmetic
in src/app.js which wraps across midnight). -/
def ofMinutes (m : Int) : String :=
  let m := m.emod 1440
  pad2 (m.ediv 60).toNat ++ ":" ++ pad2 (m.emod 60).toNat

/-- Lexicographic strict comparison of character lists, the behavior of
the JS `<` operator on strings (code-unit comparison; identical to
code-point comparison on the ASCII `HH:MM` strings used here). -/
def ltCh : List Char → List Char → Bool
  | _, [] => false
  | [], _ :: _ => true
  | c :: cs, d :: ds => if c < d then true else if d < c then false else ltCh cs ds

/-- JS string `<` as an executable comparison. -/
def strLtB (a b : String) : Bool :=
  ltCh a.data b.data

/-- JS string `<=` (equivalently `!(b < a)`) as an executable
comparison. -/
def strLeB (a b : String) : Bool :=
  !(strLtB b a)

lemma ltCh_iff : ∀ cs ds : List Char,
    ltCh cs ds = true ↔ List.Lex (fun c d : Char => c < d) cs ds
  | [], [] => by
    simp only [ltCh]
    exact ⟨fun h => by simp at h, fun h => by cases h⟩
  | [], d :: ds => by
    simp only [ltCh]
    exact ⟨fun _ => List.Lex.nil, fun _ => trivial⟩
  | c :: cs, [] => by
    simp only [ltCh]
    exact ⟨fun h => by simp at h, fun h => by cases h⟩
  | c :: cs, d :: ds => by
    simp only [ltCh]
    by_cases h1 : c < d
    · simp only [h1, if_pos]
      exact ⟨fun _ => List.Lex.rel h1, fun _ => trivial⟩
    · rw [if_neg h1]
      by_cases h2 : d < c
      · rw [if_pos h2]
        refine ⟨fun h => by simp at h, fun h => ?_⟩
        cases h with
        | rel h => exact absurd h h1
        | cons _ => exact absurd h2 (lt_irrefl _)
      · rw [if_neg h2]
        rw [ltCh_iff cs ds]
        have heq : c = d := le_antisymm (not_lt.mp h2) (not_lt.mp h1)
        subst heq
        refine ⟨fun h => List.Lex.cons h, fun h => ?_⟩
        cases h with
        | rel h => exact absurd h h1
        | cons h => exact h

lemma strLtB_iff (a b : String) : strLtB a b = true ↔ a < b := by
  rw [strLtB, ltCh_iff]
  exact (String.lt_iff_toList_lt).symm

lemma strLeB_iff (a b : String) : strLeB a b = true ↔ a ≤ b := by
  rw [strLeB, Bool.not_eq_true', ← Bool.not_eq_true, ← not_lt]
  exact not_congr (strLtB_iff b a)

/-! ### Data model (the persisted `store` aggregate) -/

/-- `task.recurrence`: one of `'none' | 'daily' | 'weekdays'`. -/
inductive Recurrence where
  | none
  | daily
  | weekdays
deriving DecidableEq, Repr

/-- A task record from the task store. JS `null` fields (`date` when not
`none`-recurrence, absent `days`/`deletedDates`) are `Option.none` and
`[]` respectively, matching the falsy-guard reads in src/app.js. -/
structure Task where
  id : String
  title : String
  startTime : String
  endTime : String
  completed : Bool
  recurrence : Recurrence
  date : Option String
  days : List Int
  deletedDates : List String
deriving DecidableEq, Repr

/-- A minted reward token (`store.rewards.saplings[i]`). -/
structure Sapling where
  id : String
  date : String
  code : String
  claimed : Bool
deriving DecidableEq, Repr

/-- `store.rewards.dailyPoints`. -/
structure DailyPoints where
  date : String
  count : Int
deriving DecidableEq, Repr

/-- `store.rewards`. -/
structure Rewards where
  dailyPoints : DailyPoints
  totalPointsEarned : Int
  saplings : List Sapling
deriving DecidableEq, Repr

/-- `store.user.water`. -/
structure Water where
  goal : Int
  lastDrink : Int
  reminders : Bool
deriving DecidableEq, Repr

/-- `store.user.settings` (the fields the core logic reads). -/
structure Settings where
  notificationsEnabled : Bool
  sleepTime : String
deriving DecidableEq, Repr

/-- `store.user`. -/
structure User where
  points : Int
  selectedDate : String
  water : Water
  settings : Settings
deriving DecidableEq, Repr

/-- The aggregate `store`. `hydrationLogs` is the date-keyed cup-count
map, embedded as an association list. -/
structure Store where
  user : User
  tasks : List Task
  rewards : Rewards
  hydrationLogs : List (String × Int)
deriving DecidableEq, Repr

/-! ### Scheduling engine: occurrence resolution -/

/-- The recurrence-rule match for a target date, exactly the three-way
branch shared by `renderUI` (src/app.js:442-451), `updateCurrentTask`
(src/app.js:667-670) and `checkNotifications` (src/app.js:1319-1321):
`none` compares `task.date` to the date string, `daily` always matches,
`weekdays` checks membership of the weekday index in `task.days`. -/
def recurrenceMatches (t : Task) (ds : String) (day : Int) : Bool :=
  match t.recurrence with
  | .none => t.date == some ds
  | .daily => true
  | .weekdays => t.days.contains day

/-- The full today-filter of `updateCurrentTask` (src/app.js:663-671):
exception dates are removed first, then the recurrence rule is applied. -/
def occursToday (t : Task) (ds : String) (day : Int) : Bool :=
  if t.deletedDates.contains ds then false
  else recurrenceMatches t ds day

/-- Occurrence on an absolute calendar day: the filter of
`updateCurrentTask` evaluated at day number `z`, with the date string
and weekday index both derived from `z` as the code derives them from
`new Date()`. -/
def occursOnDate (t : Task) (z : Int) : Bool :=
  occursToday t (dateStr z) (dayOfWeek z)

/-- The sort applied to the day's occurrences:
`tasks.sort((a, b) => a.startTime.localeCompare(b.startTime))`
(src/app.js:454, 673), embedded as a stable insertion sort on the
lexicographic `String` order of `startTime`. -/
def sortTasks (l : List Task) : List Task :=
  l.insertionSort fun a b => strLeB a.startTime b.startTime = true

/-- Result of `updateCurrentTask`'s status resolution (the five
display outcomes of src/app.js:682-717, carrying the selected task in
the CURRENT and NEXT cases). -/
inductive TaskStatus where
  | current (t : Task)
  | dayComplete
  | next (t : Task)
  | dayEnded
  | idle
deriving DecidableEq, Repr

/-- The day's task list before sorting (the `todayTasks` filter of
src/app.js:664-671). -/
def todayTasksOf (tasks : List Task) (ds : String) (day : Int) : List Task :=
  tasks.filter fun t => occursToday t ds day

/-- The day's occurrence list: recurrence-matched, exception-filtered,
sorted ascending by `startTime` (src/app.js:664-673). -/
def todayOccurrences (tasks : List Task) (ds : String) (day : Int) : List Task :=
  sortTasks (todayTasksOf tasks ds day)

/-- `updateCurrentTask` (src/app.js:657-719): filters today's
occurrences, sorts by `startTime`, and resolves the status:
an occurrence containing `now` inclusively; else all-done; else the
first occurrence strictly after `now`; else past-the-end with a
redundant all-done re-check; else idle. -/
def updateCurrentTask (tasks : List Task) (currentTime todayStr : String)
    (todayDay : Int) : TaskStatus :=
  let todayTasks := todayTasksOf tasks todayStr todayDay
  let sorted := sortTasks todayTasks
  match sorted.find? fun t =>
      strLeB t.startTime currentTime && strLeB currentTime t.endTime with
  | some t => .current t
  | Option.none =>
    if !todayTasks.isEmpty && todayTasks.all (·.completed) then
      .dayComplete
    else
      match sorted.find? fun t => strLtB currentTime t.startTime with
      | some t => .next t
      | Option.none =>
        match sorted.getLast? with
        | some last =>
          if strLtB last.endTime currentTime then
            if sorted.all (·.completed) then .dayComplete else .dayEnded
          else .idle
        | Option.none => .idle

/-! ### Scheduling engine: overlap clustering -/

/-- One step of the clustering sweep of `renderUI` (src/app.js:486-494),
on the state `(closed clusters, current cluster, running cluster
end-time)`: a task is appended to a non-empty current cluster when its
`startTime` is lexicographically below the running end-time (raising the
end-time to the max of itself and the task's `endTime`); otherwise the
non-empty current cluster is closed and a new one starts at the task. -/
def clusterStep (acc : List (List Task) × List Task × String) (t : Task) :
    List (List Task) × List Task × String :=
  let (clusters, cur, endT) := acc
  if !cur.isEmpty && strLtB t.startTime endT then
    (clusters, cur ++ [t], if strLtB endT t.endTime then t.endTime else endT)
  else
    ((if cur.isEmpty then clusters else clusters ++ [cur]), [t], t.endTime)

/-- Closing step after the sweep (src/app.js:496): the trailing
non-empty cluster is appended to the closed ones. -/
def closeClusters (p : List (List Task) × List Task × String) :
    List (List Task) :=
  if p.2.1.isEmpty then p.1 else p.1 ++ [p.2.1]

/-- The full clustering sweep of `renderUI` (src/app.js:477-496): a
left fold of `clusterStep` over the occurrence sequence, seeded with no
clusters and running end-time `"00:00"`, closing the final non-empty
cluster at the end. -/
def clusterTasks (ts : List Task) : List (List Task) :=
  closeClusters (ts.foldl clusterStep ([], [], "00:00"))

/-! ### Rewards engine -/

/-- `getSecret()` (src/app.js:146-156): the fixed embedded HMAC key,
assembled from the `_k_p` character-code array. -/
def getSecret : String :=
  String.mk ([70, 108, 111, 119, 105, 110, 103,
              84, 114, 101, 101, 115,
              71, 114, 111, 119,
              70, 97, 115, 116,
              50, 48, 50, 54].map Char.ofNat)

/-- `generateVerificationCode(id, dateStr)` (src/app.js:158-186).
The WebCrypto HMAC-SHA-256 primitive is abstracted as a parameter
`hmacHex : key → message → lowercase-hex digest`, and `cryptoOk`
abstracts whether `crypto.subtle` succeeds (the `try`/`catch`): on
success the code is `id|dateStr|` + the first 8 hex characters of
`hmacHex getSecret (id ++ ":" ++ dateStr)`; on failure the literal
marker `ERR` takes the digest fragment's place. -/
def generateVerificationCode (hmacHex : String → String → String)
    (cryptoOk : Bool) (id ds : String) : String :=
  if cryptoOk then
    id ++ "|" ++ ds ++ "|" ++ (hmacHex getSecret (id ++ ":" ++ ds)).take 8
  else
    id ++ "|" ++ ds ++ "|ERR"

/-- Modelled from the spec: `generateId()` is called when minting a
sapling (src/app.js:220) but is not defined anywhere under src/; §4.3
of the spec says the verification code is computed over
`"{saplingId}:{dateIssued}"`, so the missing generator is modelled as
producing the sapling's own next zero-padded sequence number (which the
mint loop at src/app.js:223 computes as `currentSaplings + i + 1`,
padded to width 4). -/
def generateId (currentSaplings i : Nat) : String :=
  pad4 (currentSaplings + i + 1)

/-- The sapling-minting block of `updatePoints` (src/app.js:213-230):
with `calculated = floor(points / 1000)` and `current` the existing
sapling count, when `calculated > current` exactly
`calculated - current` saplings are appended, the `(current + i + 1)`-th
carrying the zero-padded sequence id, the current timestamp `nowIso`,
a verification code for `(generateId, today)`, and `claimed = false`. -/
def mintSaplings (hmacHex : String → String → String) (cryptoOk : Bool)
    (today nowIso : String) (points : Int) (saplings : List Sapling) :
    List Sapling :=
  let current := saplings.length
  let calculated := points.toNat / 1000
  if calculated > current then
    saplings ++ (List.range (calculated - current)).map fun i =>
      { id := pad4 (current + i + 1)
        date := nowIso
        code := generateVerificationCode hmacHex cryptoOk (generateId current i) today
        claimed := false }
  else saplings

/-- The lazy daily rollover at the top of `updatePoints`
(src/app.js:191-194): `dailyPoints` resets to `{today, 0}` when its
stored date is not today. -/
def rolloverDaily (today : String) (s : Store) : Store :=
  if s.rewards.dailyPoints.date ≠ today then
    { s with rewards := { s.rewards with dailyPoints := ⟨today, 0⟩ } }
  else s

/-- The body of `updatePoints` after the daily rollover
(src/app.js:196-230): cap rejection, clamped point update, daily and
lifetime counters, sapling minting. -/
def applyAward (hmacHex : String → String → String) (cryptoOk : Bool)
    (today nowIso : String) (s : Store) (amount : Int) (source : String) :
    Store :=
  if amount > 0 ∧ s.rewards.dailyPoints.count ≥ 200 ∧ source = "task" then
    s
  else
    let pts := s.user.points + amount
    let pts := if pts < 0 then 0 else pts
    let rw :=
      if amount > 0 then
        { s.rewards with
            dailyPoints := ⟨s.rewards.dailyPoints.date,
                            s.rewards.dailyPoints.count + amount⟩
            totalPointsEarned := s.rewards.totalPointsEarned + amount }
      else s.rewards
    { s with
        user := { s.user with points := pts }
        rewards :=
          { rw with
              saplings := mintSaplings hmacHex cryptoOk today nowIso pts rw.saplings } }

/-- `updatePoints(amount, source)` (src/app.js:188-242) as a pure state
transformer: the lazy daily rollover of `dailyPoints`, then the award
body (cap rejection, clamped point update, counters, sapling minting).
Level computation and all toast/confetti output are display-only and
dropped. -/
def updatePoints (hmacHex : String → String → String) (cryptoOk : Bool)
    (today nowIso : String) (s : Store) (amount : Int) (source : String) :
    Store :=
  applyAward hmacHex cryptoOk today nowIso (rolloverDaily today s) amount source

/-! ### Task completion toggling -/

/-- Replaces the first task whose `id` matches (the in-place mutation of
the object found by `store.tasks.find` in src/app.js:847). -/
def replaceFirstTask : List Task → String → Task → List Task
  | [], _, _ => []
  | x :: xs, id, t => if x.id == id then t :: xs else x :: replaceFirstTask xs id t

/-- `toggleTask(e, id)` (src/app.js:845-859): if no task carries `id`
the store is returned unchanged; otherwise the task's `completed` flag
is flipped, and only the uncompletion direction calls
`updatePoints(-10)` — the completion branch (src/app.js:851) is empty. -/
def toggleTask (hmacHex : String → String → String) (cryptoOk : Bool)
    (today nowIso : String) (s : Store) (id : String) : Store :=
  match s.tasks.find? fun t => t.id == id with
  | Option.none => s
  | some t =>
    let t := { t with completed := !t.completed }
    let s := { s with tasks := replaceFirstTask s.tasks id t }
    if t.completed then s
    else updatePoints hmacHex cryptoOk today nowIso s (-10) "generic"

/-! ### Hydration -/

/-- Association-list update for `hydrationLogs[day] := v`. -/
def setLog : List (String × Int) → String → Int → List (String × Int)
  | [], day, v => [(day, v)]
  | (k, x) :: xs, day, v =>
    if k == day then (day, v) :: xs else (k, x) :: setLog xs day v

/-- `window.modifyWater(amount)` (src/app.js:1830-1854): a no-op unless
the viewed date is today; decrements at a zero count are ignored; the
day's cup count is adjusted and `lastDrink` stamped; and whenever
`amount > 0` lands the count exactly on `water.goal`, `updatePoints(20)`
is called (source defaults to `'generic'`). -/
def modifyWater (hmacHex : String → String → String) (cryptoOk : Bool)
    (today nowIso : String) (nowMs : Int) (s : Store) (amount : Int) : Store :=
  if s.user.selectedDate ≠ today then s
  else
    let count := ((s.hydrationLogs.lookup today).getD 0)
    if amount < 0 ∧ count ≤ 0 then s
    else
      let count := count + amount
      let s := { s with
                   hydrationLogs := setLog s.hydrationLogs today count
                   user := { s.user with
                               water := { s.user.water with lastDrink := nowMs } } }
      if amount > 0 ∧ count = s.user.water.goal then
        updatePoints hmacHex cryptoOk today nowIso s 20 "generic"
      else s

/-! ### Notification trigger evaluator -/

/-- A reminder event emitted by `checkNotifications`. -/
inductive Notif where
  | taskStart (title : String)
  | upcoming (title : String)
  | hydrate
  | windDown
deriving DecidableEq, Repr

/-- The `tasksStarting` filter of `checkNotifications`
(src/app.js:1314-1337): a non-deleted task matches when its recurrence
rule holds today and either its `startTime` equals the current time or
its start is exactly 5 minutes ahead in minute-of-day arithmetic. -/
def startingFilter (t : Task) (currentTime todayStr : String) (todayDay : Int)
    (currentMinutes : Int) : Bool :=
  if t.deletedDates.contains todayStr then false
  else if t.startTime == currentTime then recurrenceMatches t todayStr todayDay
  else if toMinutes t.startTime - currentMinutes == 5 then
    recurrenceMatches t todayStr todayDay
  else false

/-- `checkNotifications()` (src/app.js:1303-1386), as the list of
reminders fired in one tick. The task-start / 5-minute-upcoming
notifications are emitted per matching task (src/app.js:1339-1349);
then the water block runs, whose goal-already-met guard is a `return`
from the whole function (src/app.js:1362), embedded here as `none`
short-circuiting everything after it; the wind-down check
(src/app.js:1372-1385) only runs when that early return is not taken. -/
def checkNotifications (s : Store) (currentTime todayStr : String)
    (todayDay : Int) (nowMs : Int) : List Notif :=
  if !s.user.settings.notificationsEnabled then []
  else
    let currentMinutes := toMinutes currentTime
    let tasksStarting := s.tasks.filter fun t =>
      startingFilter t currentTime todayStr todayDay currentMinutes
    let startNotifs := tasksStarting.map fun t =>
      if toMinutes t.startTime - currentMinutes == 5 then
        Notif.upcoming t.title
      else Notif.taskStart t.title
    let waterNotifs : Option (List Notif) :=
      if s.user.water.reminders then
        if nowMs - s.user.water.lastDrink > 3600000 then
          let hour := currentMinutes.ediv 60
          if 9 ≤ hour ∧ hour ≤ 21 then
            if ((s.hydrationLogs.lookup todayStr).getD 0) ≥ s.user.water.goal then
              Option.none
            else if currentMinutes.emod 60 = 0 then some [.hydrate]
            else some []
          else some []
        else some []
      else some []
    match waterNotifs with
    | Option.none => startNotifs
    | some ws =>
      let sleepNotifs :=
        if s.user.settings.notificationsEnabled ∧ s.user.settings.sleepTime ≠ "" ∧
            currentTime = ofMinutes (toMinutes s.user.settings.sleepTime - 30) then
          [Notif.windDown]
        else []
      startNotifs ++ ws ++ sleepNotifs

/-! ### Shared concrete fixtures for witnesses and counterexamples -/

/-- A concrete stand-in for the abstract HMAC-hex primitive, used only
to instantiate theorems at concrete inputs. -/
def hmacConst : String → String → String :=
  fun _ _ => "0123456789abcdef0123456789abcdef"

/-- A daily task fixture. -/
def mkDaily (id st en : String) (c : Bool) : Task :=
  ⟨id, id, st, en, c, .daily, Option.none, [], []⟩

/-- A fresh store: 0 points, empty rewards, viewing 2024-06-05, water
goal 2 cups, reminders on, sleep time 21:15. -/
def freshStore : Store :=
  ⟨⟨0, "2024-06-05", ⟨2, 0, true⟩, ⟨true, "21:15"⟩⟩, [], ⟨⟨"", 0⟩, 0, []⟩, []⟩

/-! ### C1: occurrence resolution -/

/-- C1. A task occurs on a calendar date exactly when its recurrence
rule matches the date (`none`: the stored date equals it; `daily`:
always; `weekdays`: the weekday index 0=Sunday..6=Saturday is in
`task.days`) and the date is not among its `deletedDates`; a daily task
with `deletedDates = ["2024-06-05"]` occurs on every date except
2024-06-05; and a weekdays task with `days = {1,3,5}` occurs, across any
400-day span, exactly on the dates whose weekday is 1, 3 or 5. -/
theorem occursOn_matches_recurrence_minus_exceptions :
    (∀ (t : Task) (z : Int),
        occursOnDate t z = true ↔
          (dateStr z ∉ t.deletedDates ∧
            match t.recurrence with
            | .none => t.date = some (dateStr z)
            | .daily => True
            | .weekdays => dayOfWeek z ∈ t.days))
    ∧ (∀ t : Task, t.recurrence = .daily → t.deletedDates = ["2024-06-05"] →
        ∀ z : Int, (occursOnDate t z = true ↔ dateStr z ≠ "2024-06-05"))
    ∧ (∀ t : Task, t.recurrence = .weekdays → t.days = [1, 3, 5] →
        t.deletedDates = [] → ∀ (start : Int) (n : Nat), n < 400 →
          (occursOnDate t (start + n) = true ↔
            (dayOfWeek (start + n) = 1 ∨ dayOfWeek (start + n) = 3 ∨
              dayOfWeek (start + n) = 5))) := by
  refine ⟨fun t z => ?_, fun t hr hd z => ?_, fun t hr hdays hdel start n _ => ?_⟩
  · cases h : t.recurrence <;>
      simp [occursOnDate, occursToday, recurrenceMatches, h, and_comm]
  · by_cases hds : dateStr z = "2024-06-05"
    · simp [occursOnDate, occursToday, recurrenceMatches, hr, hd, hds]
    · simp [occursOnDate, occursToday, recurrenceMatches, hr, hd, hds, Ne.symm hds]
  · simp [occursOnDate, occursToday, recurrenceMatches, hr, hdays, hdel]

/-- C1 witness: the daily task with exception 2024-06-05 (epoch day
19879) is suppressed there and occurs the next day; the {1,3,5}
weekdays task occurs on 2024-06-05 (a Wednesday, weekday 3). -/
theorem occursOn_matches_recurrence_minus_exceptions_witness :
    (occursOnDate ⟨"d", "d", "08:00", "09:00", false, .daily, Option.none, [],
        ["2024-06-05"]⟩ 19879 = true ↔ dateStr 19879 ≠ "2024-06-05")
    ∧ (occursOnDate ⟨"d", "d", "08:00", "09:00", false, .daily, Option.none, [],
        ["2024-06-05"]⟩ 19880 = true ↔ dateStr 19880 ≠ "2024-06-05")
    ∧ (occursOnDate ⟨"w", "w", "08:00", "09:00", false, .weekdays, Option.none,
        [1, 3, 5], []⟩ (19500 + (379 : Nat)) = true ↔
        (dayOfWeek (19500 + (379 : Nat)) = 1 ∨ dayOfWeek (19500 + (379 : Nat)) = 3 ∨
          dayOfWeek (19500 + (379 : Nat)) = 5)) :=
  ⟨occursOn_matches_recurrence_minus_exceptions.2.1 _ rfl rfl 19879,
   occursOn_matches_recurrence_minus_exceptions.2.1 _ rfl rfl 19880,
   occursOn_matches_recurrence_minus_exceptions.2.2 _ rfl rfl rfl 19500 379
     (by decide)⟩

/-! ### Helper lemmas on the rewards engine -/

lemma rolloverDaily_user (today : String) (s : Store) :
    (rolloverDaily today s).user = s.user := by
  unfold rolloverDaily; split <;> rfl

lemma rolloverDaily_saplings (today : String) (s : Store) :
    (rolloverDaily today s).rewards.saplings = s.rewards.saplings := by
  unfold rolloverDaily; split <;> rfl

lemma rolloverDaily_of_date (today : String) (s : Store)
    (h : s.rewards.dailyPoints.date = today) : rolloverDaily today s = s := by
  unfold rolloverDaily; simp [h]

lemma length_le_mintSaplings (hmacHex : String → String → String)
    (cryptoOk : Bool) (today nowIso : String) (points : Int)
    (saplings : List Sapling) :
    saplings.length ≤
      (mintSaplings hmacHex cryptoOk today nowIso points saplings).length := by
  unfold mintSaplings
  dsimp only
  split
  · simp
  · exact le_refl _

lemma applyAward_points (hmacHex : String → String → String) (cryptoOk : Bool)
    (today nowIso : String) (s : Store) (amount : Int) (source : String) :
    (applyAward hmacHex cryptoOk today nowIso s amount source).user.points
        = s.user.points
    ∨ (applyAward hmacHex cryptoOk today nowIso s amount source).user.points
        = if s.user.points + amount < 0 then 0 else s.user.points + amount := by
  unfold applyAward
  split
  · exact Or.inl rfl
  · exact Or.inr rfl

lemma applyAward_saplings (hmacHex : String → String → String)
    (cryptoOk : Bool) (today nowIso : String) (s : Store) (amount : Int)
    (source : String)
    (h : ¬(amount > 0 ∧ s.rewards.dailyPoints.count ≥ 200 ∧ source = "task")) :
    (applyAward hmacHex cryptoOk today nowIso s amount source).rewards.saplings
      = mintSaplings hmacHex cryptoOk today nowIso
          (applyAward hmacHex cryptoOk today nowIso s amount source).user.points
          s.rewards.saplings := by
  unfold applyAward
  rw [if_neg h]
  dsimp only
  split <;> split <;> rfl

lemma applyAward_points_of_nonpos (hmacHex : String → String → String)
    (cryptoOk : Bool) (today nowIso : String) (s : Store) (amount : Int)
    (source : String) (h : ¬ amount > 0) :
    (applyAward hmacHex cryptoOk today nowIso s amount source).user.points
      = if s.user.points + amount < 0 then 0 else s.user.points + amount := by
  unfold applyAward
  rw [if_neg (by rintro ⟨hpos, _, _⟩; exact h hpos)]

/-! ### C2: the daily cap -/

/-- The store used as counterexample input for the daily cap: a fresh
day already rolled over (`dailyPoints = {2024-06-05, 0}`), zero points. -/
def capStore : Store :=
  { freshStore with rewards := ⟨⟨"2024-06-05", 0⟩, 0, []⟩ }

/-- A store whose daily count already sits exactly at the 200 cap. -/
def cappedStore : Store :=
  { freshStore with rewards := ⟨⟨"2024-06-05", 200⟩, 200, []⟩ }

/-- C2 counterexample: a single `source='task'` award of 250 on a fresh
day crosses the 200 cap and is applied in full — 250 points and a daily
count of 250 result, with the state changed — refuting both "an award
that would cross the cap is rejected in its entirety" and "awards
summing to 250 in one day result in exactly 200 points applied". -/
theorem dailyCap_crossing_award_applied_whole :
    (updatePoints hmacConst true "2024-06-05" "x" capStore 250 "task").user.points
        = 250
    ∧ (updatePoints hmacConst true "2024-06-05" "x" capStore 250
        "task").rewards.dailyPoints.count = 250
    ∧ updatePoints hmacConst true "2024-06-05" "x" capStore 250 "task" ≠ capStore := by
  refine ⟨rfl, rfl, by decide⟩

/-- C2 amended. Within one calendar day (`dailyPoints.date` already
today), a positive `source='task'` award is rejected in its entirety —
the store is returned unchanged — exactly when the daily count has
already reached 200 before the award; an award starting below the cap
is applied in full (points clamp at 0 from below, the full amount joins
the daily count) even when it crosses 200, so an award is never
truncated but the daily total can overshoot the cap; task awards of +10
each summing to 250 do yield exactly 200 applied. -/
theorem dailyCap_rejects_only_at_cap (hmacHex : String → String → String)
    (cryptoOk : Bool) (today nowIso : String) (s : Store) (amount : Int)
    (hdate : s.rewards.dailyPoints.date = today) :
    (0 < amount → 200 ≤ s.rewards.dailyPoints.count →
      updatePoints hmacHex cryptoOk today nowIso s amount "task" = s)
    ∧ (0 < amount → s.rewards.dailyPoints.count < 200 →
      (updatePoints hmacHex cryptoOk today nowIso s amount "task").user.points
          = max 0 (s.user.points + amount)
      ∧ (updatePoints hmacHex cryptoOk today nowIso s amount
          "task").rewards.dailyPoints.count
          = s.rewards.dailyPoints.count + amount)
    ∧ ((List.replicate 25 ((10 : Int), "task")).foldl
        (fun st p => updatePoints hmacConst true "2024-06-05" "y" st p.1 p.2)
        capStore).user.points = 200
    ∧ ((List.replicate 25 ((10 : Int), "task")).foldl
        (fun st p => updatePoints hmacConst true "2024-06-05" "y" st p.1 p.2)
        capStore).rewards.dailyPoints.count = 200 := by
  rw [updatePoints, rolloverDaily_of_date today s hdate]
  refine ⟨fun h1 h2 => ?_, fun h1 h2 => ?_, rfl, rfl⟩
  · unfold applyAward
    rw [if_pos ⟨h1, h2, rfl⟩]
  · have hrej : ¬(amount > 0 ∧ s.rewards.dailyPoints.count ≥ 200 ∧
        ("task" : String) = "task") := by
      rintro ⟨_, hc, _⟩; omega
    unfold applyAward
    rw [if_neg hrej]
    simp only [h1, if_pos]
    constructor
    · split <;> omega
    · simp [h1]

/-- C2 witness: at a store whose daily count is exactly 200, a further
+10 task award returns the store unchanged. -/
theorem dailyCap_rejects_only_at_cap_witness :
    updatePoints hmacConst true "2024-06-05" "z" cappedStore 10 "task"
      = cappedStore :=
  (dailyCap_rejects_only_at_cap hmacConst true "2024-06-05" "z" cappedStore 10
      rfl).1 (by decide) (by decide)

/-! ### C3: completion toggling and points -/

/-- Store with one incomplete daily task `t1` and 50 points. -/
def toggleStore : Store :=
  { freshStore with
      user := { freshStore.user with points := 50 }
      tasks := [mkDaily "t1" "09:00" "10:00" false] }

/-- The same store with `t1` already completed. -/
def toggleStoreDone : Store :=
  { toggleStore with tasks := [mkDaily "t1" "09:00" "10:00" true] }

/-- C3, evaluated at the failing input: toggling the incomplete task
`t1` to complete flips its flag but leaves points at 50 — the
completion branch of `toggleTask` (src/app.js:851) is empty, so no +10
is awarded, contradicting the claim — while toggling a completed task
back to incomplete does deduct 10 (50 → 40) and toggling a missing id
is a silent no-op. -/
theorem toggleTask_completion_awards_nothing :
    (toggleTask hmacConst true "2024-06-05" "x" toggleStore "t1").user.points = 50
    ∧ ((toggleTask hmacConst true "2024-06-05" "x" toggleStore "t1").tasks.map
        Task.completed) = [true]
    ∧ (toggleTask hmacConst true "2024-06-05" "x" toggleStoreDone
        "t1").user.points = 40
    ∧ toggleTask hmacConst true "2024-06-05" "x" toggleStore "missing"
        = toggleStore := by
  refine ⟨rfl, rfl, rfl, by decide⟩

/-! ### C4: sapling minting and verification codes -/

lemma updatePoints_saplings_eq (hmacHex : String → String → String)
    (cryptoOk : Bool) (today nowIso : String) (s : Store) (amount : Int)
    (source : String)
    (h : ¬(amount > 0 ∧ (rolloverDaily today s).rewards.dailyPoints.count ≥ 200 ∧
      source = "task")) :
    (updatePoints hmacHex cryptoOk today nowIso s amount
        source).rewards.saplings =
      mintSaplings hmacHex cryptoOk today nowIso
        (updatePoints hmacHex cryptoOk today nowIso s amount
          source).user.points
        s.rewards.saplings := by
  rw [updatePoints,
    applyAward_saplings hmacHex cryptoOk today nowIso _ amount source h,
    rolloverDaily_saplings today s]

lemma mintSaplings_spec (hmacHex : String → String → String) (cryptoOk : Bool)
    (today nowIso : String) (points : Int) (saplings : List Sapling)
    (hlt : saplings.length < points.toNat / 1000) :
    (mintSaplings hmacHex cryptoOk today nowIso points saplings).length
        = points.toNat / 1000
    ∧ (mintSaplings hmacHex cryptoOk today nowIso points
        saplings).take saplings.length = saplings
    ∧ ∀ (i : Nat) (h1 : saplings.length ≤ i)
        (h2 : i < (mintSaplings hmacHex cryptoOk today nowIso points
          saplings).length),
        (mintSaplings hmacHex cryptoOk today nowIso points saplings).get
          ⟨i, h2⟩ =
          { id := pad4 (i + 1)
            date := nowIso
            code :=
              if cryptoOk then
                pad4 (i + 1) ++ "|" ++ today ++ "|" ++
                  (hmacHex getSecret (pad4 (i + 1) ++ ":" ++ today)).take 8
              else pad4 (i + 1) ++ "|" ++ today ++ "|ERR"
            claimed := false } := by
  have hr : mintSaplings hmacHex cryptoOk today nowIso points saplings
      = saplings ++
        (List.range (points.toNat / 1000 - saplings.length)).map fun i =>
          { id := pad4 (saplings.length + i + 1)
            date := nowIso
            code := generateVerificationCode hmacHex cryptoOk
                (generateId saplings.length i) today
            claimed := false } := by
    unfold mintSaplings
    dsimp only
    rw [if_pos hlt]
  refine ⟨?_, ?_, ?_⟩
  · rw [hr]; simp; omega
  · rw [hr]; exact List.take_left saplings _
  · intro i h1 h2
    have hi' : i - saplings.length < points.toNat / 1000 - saplings.length := by
      have : (mintSaplings hmacHex cryptoOk today nowIso points
          saplings).length = points.toNat / 1000 := by
        rw [hr]; simp; omega
      omega
    have harith : saplings.length + (i - saplings.length) + 1 = i + 1 := by
      omega
    rw [List.get_eq_getElem, List.getElem_eq_iff]
    show (mintSaplings hmacHex cryptoOk today nowIso points saplings)[i]? = _
    rw [hr, List.getElem?_append_right h1, List.getElem?_map,
      List.getElem?_range hi']
    simp [generateId, generateVerificationCode, harith]

/-- C4. After every award that is not cap-rejected, the sapling list is
exactly the minting block applied at the award's resulting points over
the pre-award saplings (part 1); whenever `floor(points / 1000)`
exceeds the current sapling count, that block appends exactly the
difference, keeps the existing saplings, and gives the `(i+1)`-th
sapling (0-based index `i`) the zero-padded sequence id `pad4 (i+1)`,
the current timestamp, `claimed = false`, and the code
`"{id}|{today}|{first 8 hex chars of hmacHex(secret, "{id}:{today}")}"`,
degrading to the literal `ERR` marker in the fragment position — the
sapling still minted — when the cryptographic API is unavailable
(part 2); consequently, whenever a non-rejected award raises points so
that `floor(points / 1000)` exceeds `saplings.length`, the award itself
mints exactly the difference with those ids, dates, flags and codes
(part 3). -/
theorem sapling_minting_and_codes (hmacHex : String → String → String)
    (cryptoOk : Bool) (today nowIso : String) :
    (∀ (s : Store) (amount : Int) (source : String),
      ¬(amount > 0 ∧
        (rolloverDaily today s).rewards.dailyPoints.count ≥ 200 ∧
        source = "task") →
      (updatePoints hmacHex cryptoOk today nowIso s amount
          source).rewards.saplings =
        mintSaplings hmacHex cryptoOk today nowIso
          (updatePoints hmacHex cryptoOk today nowIso s amount
            source).user.points
          s.rewards.saplings)
    ∧ (∀ (points : Int) (saplings : List Sapling),
        saplings.length < points.toNat / 1000 →
        (mintSaplings hmacHex cryptoOk today nowIso points saplings).length
            = points.toNat / 1000
        ∧ (mintSaplings hmacHex cryptoOk today nowIso points
            saplings).take saplings.length = saplings
        ∧ ∀ (i : Nat) (h1 : saplings.length ≤ i)
            (h2 : i < (mintSaplings hmacHex cryptoOk today nowIso points
              saplings).length),
            (mintSaplings hmacHex cryptoOk today nowIso points saplings).get
              ⟨i, h2⟩ =
              { id := pad4 (i + 1)
                date := nowIso
                code :=
                  if cryptoOk then
                    pad4 (i + 1) ++ "|" ++ today ++ "|" ++
                      (hmacHex getSecret (pad4 (i + 1) ++ ":" ++ today)).take 8
                  else pad4 (i + 1) ++ "|" ++ today ++ "|ERR"
                claimed := false })
    ∧ (∀ (s : Store) (amount : Int) (source : String),
        ¬(amount > 0 ∧
          (rolloverDaily today s).rewards.dailyPoints.count ≥ 200 ∧
          source = "task") →
        s.rewards.saplings.length <
          ((updatePoints hmacHex cryptoOk today nowIso s amount
            source).user.points).toNat / 1000 →
        (updatePoints hmacHex cryptoOk today nowIso s amount
            source).rewards.saplings.length
          = ((updatePoints hmacHex cryptoOk today nowIso s amount
            source).user.points).toNat / 1000
        ∧ (updatePoints hmacHex cryptoOk today nowIso s amount
            source).rewards.saplings.take s.rewards.saplings.length
          = s.rewards.saplings
        ∧ ∀ (i : Nat) (h1 : s.rewards.saplings.length ≤ i)
            (h2 : i < (updatePoints hmacHex cryptoOk today nowIso s amount
              source).rewards.saplings.length),
            (updatePoints hmacHex cryptoOk today nowIso s amount
              source).rewards.saplings.get ⟨i, h2⟩ =
              { id := pad4 (i + 1)
                date := nowIso
                code :=
                  if cryptoOk then
                    pad4 (i + 1) ++ "|" ++ today ++ "|" ++
                      (hmacHex getSecret (pad4 (i + 1) ++ ":" ++ today)).take 8
                  else pad4 (i + 1) ++ "|" ++ today ++ "|ERR"
                claimed := false }) := by
  refine ⟨fun s amount source h =>
      updatePoints_saplings_eq hmacHex cryptoOk today nowIso s amount source h,
    fun points saplings hlt =>
      mintSaplings_spec hmacHex cryptoOk today nowIso points saplings hlt,
    ?_⟩
  intro s amount source hrej hlt
  have heq := updatePoints_saplings_eq hmacHex cryptoOk today nowIso s amount
    source hrej
  have hm := mintSaplings_spec hmacHex cryptoOk today nowIso
    ((updatePoints hmacHex cryptoOk today nowIso s amount
      source).user.points) s.rewards.saplings hlt
  refine ⟨?_, ?_, ?_⟩
  · rw [heq]; exact hm.1
  · rw [heq]; exact hm.2.1
  · intro i h1 h2
    have h2' : i < (mintSaplings hmacHex cryptoOk today nowIso
        ((updatePoints hmacHex cryptoOk today nowIso s amount
          source).user.points) s.rewards.saplings).length := by
      rw [← heq]; exact h2
    have hx := hm.2.2 i h1 h2'
    rw [List.get_eq_getElem, List.getElem_eq_iff] at hx
    rw [List.get_eq_getElem, List.getElem_eq_iff]
    show (updatePoints hmacHex cryptoOk today nowIso s amount
      source).rewards.saplings[i]? = _
    rw [heq]
    exact hx

/-- C4 witness: awarding +2000 generic points on the fresh store (0
points, no saplings, not cap-rejected) raises points to 2000 and the
award mints so that the sapling count equals `floor(2000 / 1000) = 2`. -/
theorem sapling_minting_and_codes_witness :
    (updatePoints hmacConst true "2024-06-05" "iso" freshStore 2000
        "generic").rewards.saplings.length
      = ((updatePoints hmacConst true "2024-06-05" "iso" freshStore 2000
        "generic").user.points).toNat / 1000 :=
  ((sapling_minting_and_codes hmacConst true "2024-06-05" "iso").2.2 freshStore
    2000 "generic" (by decide) (by decide)).1

/-! ### C5: the points floor -/

/-- C5. Starting from a non-negative balance, any sequence of
`updatePoints` awards and penalties, of any magnitudes, sources and
order, keeps `points ≥ 0`; and a single penalty larger than the current
balance lands on exactly 0. -/
theorem points_never_negative (hmacHex : String → String → String)
    (cryptoOk : Bool) (today nowIso : String) (ops : List (Int × String))
    (s : Store) (h : 0 ≤ s.user.points) :
    0 ≤ ((ops.foldl
        (fun st p => updatePoints hmacHex cryptoOk today nowIso st p.1 p.2)
        s).user.points)
    ∧ ∀ (a : Int) (src : String), s.user.points + a < 0 →
        (updatePoints hmacHex cryptoOk today nowIso s a src).user.points = 0 := by
  constructor
  · induction ops generalizing s with
    | nil => exact h
    | cons p ops ih =>
      rw [List.foldl_cons]
      refine ih _ ?_
      rcases applyAward_points hmacHex cryptoOk today nowIso
          (rolloverDaily today s) p.1 p.2 with hc | hc
      · rw [updatePoints, hc, rolloverDaily_user]; exact h
      · rw [updatePoints, hc, rolloverDaily_user]; split <;> omega
  · intro a src hneg
    have ha : ¬ a > 0 := by omega
    rw [updatePoints, applyAward_points_of_nonpos hmacHex cryptoOk today nowIso _ a
        src ha, rolloverDaily_user, if_pos hneg]

/-- C5 witness: starting from the fresh store (0 points), the sequence
penalty −50 then award +30 ends at a non-negative balance. -/
theorem points_never_negative_witness :
    0 ≤ ((([(-50, "generic"), (30, "task")] : List (Int × String)).foldl
        (fun st p => updatePoints hmacConst true "2024-06-05" "v" st p.1 p.2)
        freshStore).user.points) :=
  (points_never_negative hmacConst true "2024-06-05" "v"
    [(-50, "generic"), (30, "task")] freshStore (by decide)).1

/-! ### C6: sapling monotonicity -/

/-- C6. `saplings.length` never decreases under any `updatePoints`
call; and in the concrete scenario — award +1000 (one sapling minted,
points 1000), penalty −500 (length stays 1, points 500), award +500
(back at 1000 points, still length 1: `floor(1000/1000) = 1` does not
exceed it), award +1000 (points 2000, the second sapling is minted
only now). -/
theorem saplings_never_shrink (hmacHex : String → String → String)
    (cryptoOk : Bool) (today nowIso : String) :
    (∀ (s : Store) (a : Int) (src : String),
        s.rewards.saplings.length ≤
          (updatePoints hmacHex cryptoOk today nowIso s a
            src).rewards.saplings.length)
    ∧ (let st := fun (l : List Int) =>
        l.foldl (fun st a => updatePoints hmacConst true "2024-06-05" "w" st a
          "generic") freshStore
      (st [1000]).rewards.saplings.length = 1 ∧ (st [1000]).user.points = 1000
      ∧ (st [1000, -500]).rewards.saplings.length = 1
      ∧ (st [1000, -500]).user.points = 500
      ∧ (st [1000, -500, 500]).rewards.saplings.length = 1
      ∧ (st [1000, -500, 500]).user.points = 1000
      ∧ (st [1000, -500, 500, 1000]).rewards.saplings.length = 2
      ∧ (st [1000, -500, 500, 1000]).user.points = 2000) := by
  constructor
  · intro s a src
    by_cases hrej : a > 0 ∧
        (rolloverDaily today s).rewards.dailyPoints.count ≥ 200 ∧ src = "task"
    · rw [updatePoints]
      unfold applyAward
      rw [if_pos hrej, rolloverDaily_saplings]
    · rw [updatePoints,
        applyAward_saplings hmacHex cryptoOk today nowIso _ a src hrej,
        rolloverDaily_saplings]
      exact length_le_mintSaplings hmacHex cryptoOk today nowIso _ _
  · exact ⟨rfl, rfl, rfl, rfl, rfl, rfl, rfl, rfl⟩

/-! ### C9: the hydration-goal reward -/

/-- C9, evaluated at the failing input. With `water.goal = 2` and
today's log starting empty, the same-day sequence of cup modifications
`+1, +1, -1, +1` earns the +20 hydration reward twice (total +40):
`modifyWater` re-checks `count === goal` on every increment
(src/app.js:1848), so decrementing below the goal and re-incrementing
back to it re-awards, contradicting the at-most-once-per-day claim
(and the spec itself flags this as a likely unintended repeat-reward in
its design notes). A goal-crossing run `+1, +1, +1` awards only once
(never on increments past the goal). -/
theorem hydration_reward_fires_twice :
    (([1, 1] : List Int).foldl
        (fun st a => modifyWater hmacConst true "2024-06-05" "w" 99 st a)
        freshStore).user.points = 20
    ∧ (([1, 1, -1, 1] : List Int).foldl
        (fun st a => modifyWater hmacConst true "2024-06-05" "w" 99 st a)
        freshStore).user.points = 40
    ∧ (([1, 1, 1] : List Int).foldl
        (fun st a => modifyWater hmacConst true "2024-06-05" "w" 99 st a)
        freshStore).user.points = 20 :=
  ⟨rfl, rfl, rfl⟩

/-! ### C10: independence of the notification kinds -/

/-- Store for the C10 failing input: notifications enabled, water
reminders on, last drink long ago, hydration goal (2 cups) already met
today, sleep time 21:15 so the wind-down reminder is due at 20:45. -/
def nagStore : Store :=
  { freshStore with hydrationLogs := [("2024-06-05", 2)] }

/-- The same store with water reminders switched off. -/
def nagStoreOff : Store :=
  { nagStore with
      user := { nagStore.user with
                  water := { nagStore.user.water with reminders := false } } }

/-- C10, evaluated at the failing input. At 20:45 — the wind-down
minute for a 21:15 sleep time — with water reminders enabled, more than
an hour since the last drink, the hour inside the nag window and the
hydration goal already met, `checkNotifications` emits nothing: the
goal-met guard (src/app.js:1362) is a `return` from the whole function,
so suppressing the hydration nag also suppresses the wind-down
reminder. Turning the unrelated `water.reminders` flag off makes the
wind-down fire, refuting the claim that the four kinds are evaluated
independently. -/
theorem winddown_suppressed_by_hydration_guard :
    checkNotifications nagStore "20:45" "2024-06-05" 3 999999999 = []
    ∧ checkNotifications nagStoreOff "20:45" "2024-06-05" 3 999999999
        = [Notif.windDown] :=
  ⟨rfl, rfl⟩

/-! ### C8: overlap clustering -/

lemma closeClusters_step (acc : List (List Task) × List Task × String)
    (t : Task) :
    (closeClusters (clusterStep acc t)).flatten
      = (closeClusters acc).flatten ++ [t] := by
  obtain ⟨cls, cur, endT⟩ := acc
  unfold clusterStep closeClusters
  dsimp only
  by_cases hc : cur.isEmpty
  · rw [List.isEmpty_iff.mp hc]
    simp
  · by_cases hlt : strLtB t.startTime endT
    · simp [hc, hlt]
    · simp [hc, hlt]

lemma clusterFold_flatten :
    ∀ (ts : List Task) (acc : List (List Task) × List Task × String),
      (closeClusters (ts.foldl clusterStep acc)).flatten
        = (closeClusters acc).flatten ++ ts := by
  intro ts
  induction ts with
  | nil => intro acc; simp
  | cons t ts ih =>
    intro acc
    rw [List.foldl_cons, ih (clusterStep acc t), closeClusters_step,
      List.append_assoc]
    rfl

/-- Occurrence fixtures for the clustering example. -/
def occA : Task := mkDaily "a" "09:00" "10:00" false

/-- 09:30-10:30 occurrence, overlapping `occA`. -/
def occB : Task := mkDaily "b" "09:30" "10:30" false

/-- 11:00-12:00 occurrence, disjoint from the first two. -/
def occC : Task := mkDaily "c" "11:00" "12:00" false

/-- C8. Over any occurrence sequence sorted ascending by `startTime`:
the sweep step appends a task to the current cluster exactly when the
cluster is non-empty and the task's `startTime` is lexicographically
below the running cluster end-time, raising the end-time to the
maximum of itself and the task's `endTime`, and otherwise closes the
non-empty current cluster and starts a new one; the resulting clusters
concatenate back to the input sequence in order (a partition); and the
occurrences 09:00-10:00, 09:30-10:30, 11:00-12:00 yield exactly the
two clusters {09:00-10:00, 09:30-10:30} and {11:00-12:00}. -/
theorem clustering_partitions_in_order (ts : List Task)
    (hs : List.Sorted (fun a b => strLeB a.startTime b.startTime = true) ts) :
    (clusterTasks ts).flatten = ts
    ∧ (∀ (cls : List (List Task)) (cur : List Task) (endT : String) (t : Task),
        clusterStep (cls, cur, endT) t =
          if cur ≠ [] ∧ t.startTime < endT then
            (cls, cur ++ [t], max endT t.endTime)
          else ((if cur = [] then cls else cls ++ [cur]), [t], t.endTime))
    ∧ clusterTasks [occA, occB, occC] = [[occA, occB], [occC]] := by
  refine ⟨?_, ?_, by decide⟩
  · rw [clusterTasks, clusterFold_flatten ts ([], [], "00:00")]
    rfl
  · intro cls cur endT t
    unfold clusterStep
    dsimp only
    by_cases hc : cur.isEmpty
    · rw [List.isEmpty_iff.mp hc]
      simp
    · have hc' : cur ≠ [] := fun h => hc (h ▸ rfl)
      by_cases hlt : strLtB t.startTime endT
      · have hlt' : t.startTime < endT := (strLtB_iff _ _).mp hlt
        have hmax : (if strLtB endT t.endTime then t.endTime else endT)
            = max endT t.endTime := by
          by_cases hm : strLtB endT t.endTime
          · rw [if_pos hm, max_eq_right (le_of_lt ((strLtB_iff _ _).mp hm))]
          · rw [if_neg hm, max_eq_left]
            exact not_lt.mp fun hl => hm ((strLtB_iff _ _).mpr hl)
        rw [if_pos (show (!cur.isEmpty && strLtB t.startTime endT) = true by
          simp [hc, hlt])]
        rw [hmax, if_pos (show cur ≠ [] ∧ t.startTime < endT from ⟨hc', hlt'⟩)]
      · have hnot : ¬(cur ≠ [] ∧ t.startTime < endT) := by
          rintro ⟨_, hl⟩
          exact hlt ((strLtB_iff _ _).mpr hl)
        rw [if_neg (show ¬(!cur.isEmpty && strLtB t.startTime endT) = true by
          simp [hlt])]
        rw [if_neg hnot, if_neg hc', if_neg hc]

/-- C8 witness: at the three-occurrence example (which is sorted by
start time), the clusters concatenate back to the input sequence. -/
theorem clustering_partitions_in_order_witness :
    (clusterTasks [occA, occB, occC]).flatten = [occA, occB, occC] :=
  (clustering_partitions_in_order [occA, occB, occC] (by decide)).1

/-! ### C7: current / next status resolution -/

instance : IsTotal Task fun a b => strLeB a.startTime b.startTime = true :=
  ⟨fun a b => by
    rcases le_total a.startTime b.startTime with h | h
    · exact Or.inl ((strLeB_iff _ _).mpr h)
    · exact Or.inr ((strLeB_iff _ _).mpr h)⟩

instance : IsTrans Task fun a b => strLeB a.startTime b.startTime = true :=
  ⟨fun a b c h1 h2 => (strLeB_iff _ _).mpr
    (le_trans ((strLeB_iff _ _).mp h1) ((strLeB_iff _ _).mp h2))⟩

lemma sortTasks_sorted (l : List Task) :
    List.Sorted (fun a b => strLeB a.startTime b.startTime = true)
      (sortTasks l) :=
  List.sorted_insertionSort _ l

lemma sortTasks_perm (l : List Task) : List.Perm (sortTasks l) l :=
  List.perm_insertionSort _ l

lemma find?_min_of_sorted {p : Task → Bool} :
    ∀ {l : List Task},
      List.Sorted (fun a b => strLeB a.startTime b.startTime = true) l →
      ∀ {t : Task}, l.find? p = some t →
      ∀ u ∈ l, p u = true → t.startTime ≤ u.startTime := by
  intro l
  induction l with
  | nil => intro _ t h; simp at h
  | cons x xs ih =>
    intro hs t hf u hu hp
    cases hx : p x with
    | false =>
      rw [List.find?_cons_of_neg _ (by simp [hx])] at hf
      rcases List.mem_cons.mp hu with rfl | hu'
      · rw [hp] at hx; cases hx
      · exact ih hs.of_cons hf u hu' hp
    | true =>
      rw [List.find?_cons_of_pos _ hx] at hf
      injection hf with hf
      subst hf
      rcases List.mem_cons.mp hu with rfl | hu'
      · exact le_refl _
      · exact (strLeB_iff _ _).mp (List.rel_of_sorted_cons hs u hu')

/-- C7. With today's occurrence list (recurrence-matched,
exception-filtered, sorted by `startTime`), `updateCurrentTask`
resolves: CURRENT for an occurrence whose `[startTime, endTime]`
interval contains the current time inclusively at both ends; otherwise
DAY_COMPLETE when at least one occurrence exists and all are completed;
otherwise NEXT carrying the earliest occurrence with `startTime`
strictly after now; otherwise DAY_ENDED when the current time is past
the last occurrence's end and some occurrence remains incomplete;
otherwise IDLE — every input falls into one of these outcomes, none
raises an error. -/
theorem currentOrNext_resolution (tasks : List Task) (now today : String)
    (day : Int) :
    ((∃ t ∈ todayOccurrences tasks today day,
        t.startTime ≤ now ∧ now ≤ t.endTime) →
      ∃ t, updateCurrentTask tasks now today day = .current t
        ∧ t ∈ todayOccurrences tasks today day
        ∧ t.startTime ≤ now ∧ now ≤ t.endTime)
    ∧ ((∀ t ∈ todayOccurrences tasks today day,
          ¬(t.startTime ≤ now ∧ now ≤ t.endTime)) →
        todayOccurrences tasks today day ≠ [] →
        (∀ t ∈ todayOccurrences tasks today day, t.completed = true) →
        updateCurrentTask tasks now today day = .dayComplete)
    ∧ ((∀ t ∈ todayOccurrences tasks today day,
          ¬(t.startTime ≤ now ∧ now ≤ t.endTime)) →
        ¬(todayOccurrences tasks today day ≠ [] ∧
          ∀ t ∈ todayOccurrences tasks today day, t.completed = true) →
        (∃ t ∈ todayOccurrences tasks today day, now < t.startTime) →
        ∃ t, updateCurrentTask tasks now today day = .next t
          ∧ t ∈ todayOccurrences tasks today day ∧ now < t.startTime
          ∧ ∀ u ∈ todayOccurrences tasks today day,
              now < u.startTime → t.startTime ≤ u.startTime)
    ∧ ((∀ t ∈ todayOccurrences tasks today day,
          ¬(t.startTime ≤ now ∧ now ≤ t.endTime)) →
        (∀ t ∈ todayOccurrences tasks today day, ¬ now < t.startTime) →
        (∃ t ∈ todayOccurrences tasks today day, t.completed = false) →
        (∃ last, (todayOccurrences tasks today day).getLast? = some last ∧
          last.endTime < now) →
        updateCurrentTask tasks now today day = .dayEnded)
    ∧ ((∀ t ∈ todayOccurrences tasks today day,
          ¬(t.startTime ≤ now ∧ now ≤ t.endTime)) →
        ¬(todayOccurrences tasks today day ≠ [] ∧
          ∀ t ∈ todayOccurrences tasks today day, t.completed = true) →
        (∀ t ∈ todayOccurrences tasks today day, ¬ now < t.startTime) →
        (∀ last, (todayOccurrences tasks today day).getLast? = some last →
          ¬ last.endTime < now) →
        updateCurrentTask tasks now today day = .idle) := by
  have hperm : List.Perm (todayOccurrences tasks today day)
      (todayTasksOf tasks today day) :=
    sortTasks_perm _
  have hact_iff : ∀ t : Task,
      (strLeB t.startTime now && strLeB now t.endTime) = true ↔
        (t.startTime ≤ now ∧ now ≤ t.endTime) := by
    intro t
    rw [Bool.and_eq_true, strLeB_iff, strLeB_iff]
  have mkfact : (∀ t ∈ todayOccurrences tasks today day,
      ¬(t.startTime ≤ now ∧ now ≤ t.endTime)) →
      (todayOccurrences tasks today day).find?
        (fun t => strLeB t.startTime now && strLeB now t.endTime) = none :=
    fun hno => List.find?_eq_none.mpr
      fun x hx hpx => hno x hx ((hact_iff x).mp hpx)
  have mknext : (∀ t ∈ todayOccurrences tasks today day, ¬ now < t.startTime) →
      (todayOccurrences tasks today day).find?
        (fun t => strLtB now t.startTime) = none :=
    fun hno => List.find?_eq_none.mpr
      fun x hx hpx => hno x hx ((strLtB_iff _ _).mp hpx)
  have mkcond : ¬(todayOccurrences tasks today day ≠ [] ∧
      ∀ t ∈ todayOccurrences tasks today day, t.completed = true) →
      ¬ ((!(todayTasksOf tasks today day).isEmpty &&
          (todayTasksOf tasks today day).all fun t => t.completed) = true) := by
    intro hnotall hcond
    rw [Bool.and_eq_true] at hcond
    obtain ⟨hne, hall⟩ := hcond
    refine hnotall ⟨fun hocc0 => ?_, fun t ht => ?_⟩
    · rw [hocc0] at hperm
      rw [List.Perm.eq_nil hperm.symm, List.isEmpty_nil] at hne
      exact Bool.false_ne_true (by simpa using hne)
    · exact List.all_eq_true.mp hall t (hperm.mem_iff.mp ht)
  refine ⟨?_, ?_, ?_, ?_, ?_⟩
  · rintro ⟨t0, ht0mem, ht0act⟩
    cases hf : (todayOccurrences tasks today day).find?
        (fun t => strLeB t.startTime now && strLeB now t.endTime) with
    | none =>
      exact absurd ((hact_iff t0).mpr ht0act)
        (List.find?_eq_none.mp hf t0 ht0mem)
    | some t =>
      have hmem := List.mem_of_find?_eq_some hf
      have hp := List.find?_some hf
      have hact := (hact_iff t).mp hp
      refine ⟨t, ?_, hmem, hact.1, hact.2⟩
      unfold todayOccurrences at hf
      unfold updateCurrentTask
      dsimp only
      rw [hf]
  · intro hno hne hall
    have hf := mkfact hno
    have htne : todayTasksOf tasks today day ≠ [] := by
      intro h
      rw [h] at hperm
      exact hne (List.Perm.eq_nil hperm)
    have htall : ((todayTasksOf tasks today day).all fun t => t.completed)
        = true :=
      List.all_eq_true.mpr fun x hx => hall x (hperm.mem_iff.mpr hx)
    unfold todayOccurrences at hf
    unfold updateCurrentTask
    dsimp only
    rw [hf]
    dsimp only
    rw [if_pos (by simp [htall, List.isEmpty_iff, htne])]
  · intro hno hnotall hex
    have hf := mkfact hno
    have hcond := mkcond hnotall
    cases hfn : (todayOccurrences tasks today day).find?
        (fun t => strLtB now t.startTime) with
    | none =>
      obtain ⟨t0, ht0, hlt0⟩ := hex
      exact absurd ((strLtB_iff _ _).mpr hlt0) (List.find?_eq_none.mp hfn t0 ht0)
    | some t =>
      have hmem := List.mem_of_find?_eq_some hfn
      have hp := List.find?_some hfn
      have hlt := (strLtB_iff _ _).mp hp
      refine ⟨t, ?_, hmem, hlt, fun u hu hul =>
        find?_min_of_sorted (sortTasks_sorted _) hfn u hu
          ((strLtB_iff _ _).mpr hul)⟩
      unfold todayOccurrences at hf hfn
      unfold updateCurrentTask
      dsimp only
      rw [hf]
      dsimp only
      rw [if_neg hcond]
      rw [hfn]
  · intro hno hnofut hincomp hlast
    obtain ⟨last, hgl, hllt⟩ := hlast
    obtain ⟨t0, ht0, ht0c⟩ := hincomp
    have hf := mkfact hno
    have hfn := mknext hnofut
    have hcond := mkcond (by
      rintro ⟨_, hall⟩
      rw [hall t0 ht0] at ht0c
      cases ht0c)
    have hallocc : ((todayOccurrences tasks today day).all
        fun t => t.completed) = false := by
      rw [Bool.eq_false_iff]
      intro hT
      rw [List.all_eq_true.mp hT t0 ht0] at ht0c
      cases ht0c
    unfold todayOccurrences at hf hfn hgl hallocc
    unfold updateCurrentTask
    dsimp only
    rw [hf]
    dsimp only
    rw [if_neg hcond]
    rw [hfn]
    dsimp only
    rw [hgl]
    dsimp only
    rw [if_pos ((strLtB_iff _ _).mpr hllt), hallocc]
    rfl
  · intro hno hnotall hnofut hnoend
    have hf := mkfact hno
    have hfn := mknext hnofut
    have hcond := mkcond hnotall
    cases hgl : (todayOccurrences tasks today day).getLast? with
    | none =>
      unfold todayOccurrences at hf hfn hgl
      unfold updateCurrentTask
      dsimp only
      rw [hf]
      dsimp only
      rw [if_neg hcond]
      rw [hfn]
      dsimp only
      rw [hgl]
    | some last =>
      have hnl : ¬ (strLtB last.endTime now = true) :=
        fun hb => hnoend last hgl ((strLtB_iff _ _).mp hb)
      unfold todayOccurrences at hf hfn hgl
      unfold updateCurrentTask
      dsimp only
      rw [hf]
      dsimp only
      rw [if_neg hcond]
      rw [hfn]
      dsimp only
      rw [hgl]
      dsimp only
      rw [if_neg hnl]

/-- C7 witness: with the single daily occurrence 09:00-10:00 and the
clock at 09:30, the resolution returns CURRENT for that occurrence. -/
theorem currentOrNext_resolution_witness :
    ∃ t, updateCurrentTask [occA] "09:30" "2024-06-05" 3 = .current t
      ∧ t ∈ todayOccurrences [occA] "2024-06-05" 3
      ∧ t.startTime ≤ "09:30" ∧ "09:30" ≤ t.endTime :=
  (currentOrNext_resolution [occA] "09:30" "2024-06-05" 3).1
    ⟨occA, by decide, (strLeB_iff _ _).mp (by decide),
      (strLeB_iff _ _).mp (by decide)⟩

end Flow
